import Mathlib

/-!
# Verification of the schedule-generator engine

A shallow embedding of `src/schedule_generator.py` (class `ScheduleGenerator`,
OR-Tools CP-SAT model builder) together with proofs about the constraint model
it builds, its multi-solve driver and its solution extractor.

The CP-SAT boolean variables `shifts[(m, d, s)]` become an `Assignment`
function `Nat → Nat → ShiftType → Bool`; each `model.Add(...)` call becomes a
decidable proposition over such assignments, and each builder method becomes a
`Prop`-valued constraint family quantified exactly over the index ranges the
Python loops traverse.  The external CP-SAT solver is abstracted as an oracle
supplying a status and an assignment per attempt, as the spec directs.
-/

namespace ScheduleGen

/-- External work codes (`class WorkCode` in the source). -/
def WorkCode.EMPTY : String := ""

/-- Morning work. -/
def WorkCode.Z : String := "Z"

/-- Afternoon work (13:00). -/
def WorkCode.HC : String := "HC"

/-- Afternoon work (14:00). -/
def WorkCode.IA : String := "IA"

/-- Automatically assigned rest day. -/
def WorkCode.R : String := "R"

/-- User-requested rest day. -/
def WorkCode.RQ : String := "RQ"

/-- Morning training (counts 0.5 staff). -/
def WorkCode.ZT : String := "ZT"

/-- Afternoon training (counts 0.5 staff). -/
def WorkCode.HCT : String := "HCT"

/-- Afternoon training (counts 0.5 staff). -/
def WorkCode.IAT : String := "IAT"

/-- Full-day training (counts 0 staff, pinned to OFF). -/
def WorkCode.DT : String := "DT"

/-- Shift type indices (`class ShiftType` in the source: OFF=0, AM=1, PM_HC=2, PM_IA=3). -/
inductive ShiftType : Type where
  | OFF
  | AM
  | PM_HC
  | PM_IA
deriving DecidableEq, BEq, Fintype, Repr

/-- One row of the input grid: a member name and its pre-filled day codes
(`{"name": str, "days": List[str]}`). -/
structure MemberSchedule where
  name : String
  days : List String
deriving DecidableEq, Inhabited, Repr

/-- The target month.  The source stores it as the string `"YYYY-MM"` and splits
it on `"-"`; request parsing is excluded from the engine (spec section 1), so the
embedding keeps the already-split pair. -/
structure TargetMonth where
  year : Nat
  month : Nat
deriving DecidableEq, Inhabited, Repr

/-- `option["continuousWorkLimit"]`: run-length limits for AM, PM and any-work days. -/
structure ContinuousWorkLimit where
  am : Nat
  pm : Nat
  total : Nat
deriving DecidableEq, Inhabited, Repr

/-- The option set consumed by the builder.  `dayOffIndividual` is the Python dict
`{memberName: int}` modelled as an association list. -/
structure Options where
  dayOffIndividual : List (String × Int)
  dayOffStream : String
  workCodeAverage : String
  continuousWorkLimit : ContinuousWorkLimit
  targetMonth : TargetMonth
  reducedStaffingDays : List Nat
deriving DecidableEq, Inhabited, Repr

/-- The full engine input: `{"schedule": [...], "option": {...}}`. -/
structure Input where
  schedule : List MemberSchedule
  option : Options
deriving DecidableEq, Inhabited, Repr

/-- Gregorian leap-year rule, as `datetime` implements it. -/
def isLeapYear (y : Nat) : Bool :=
  (y % 4 == 0 && y % 100 != 0) || y % 400 == 0

/-- `_get_days_in_month`: the source computes `datetime(next month, 1) - datetime(y, m, 1)`;
for a valid month 1..12 that difference is the Gregorian month length. -/
def daysInMonth (tm : TargetMonth) : Nat :=
  if tm.month = 2 then (if isLeapYear tm.year then 29 else 28)
  else if tm.month = 4 ∨ tm.month = 6 ∨ tm.month = 9 ∨ tm.month = 11 then 30
  else 31

/-- Cumulative day counts before each month in a non-leap year (index = month number). -/
def monthCumDays : List Nat :=
  [0, 0, 31, 59, 90, 120, 151, 181, 212, 243, 273, 304, 334]

/-- Days in year `y` before month `m` begins. -/
def daysBeforeMonth (y m : Nat) : Nat :=
  monthCumDays.getD m 0 + (if 2 < m && isLeapYear y then 1 else 0)

/-- Days before January 1 of year `y` in the proleptic Gregorian calendar
(`datetime.toordinal` convention: ordinal 1 = 0001-01-01). -/
def daysBeforeYear (y : Nat) : Nat :=
  365 * (y - 1) + (y - 1) / 4 - (y - 1) / 100 + (y - 1) / 400

/-- Proleptic-Gregorian ordinal of the date `(y, m, d)` (`datetime.toordinal`). -/
def toOrdinal (y m d : Nat) : Nat :=
  daysBeforeYear y + daysBeforeMonth y m + d

/-- `_get_day_of_week`: `datetime.weekday()` (Monday = 0) rotated by `(weekday + 1) % 7`
to the system convention 0 = Sunday ... 6 = Saturday.  Ordinal 1 (0001-01-01) was a
Monday, so `weekday = (ordinal - 1) % 7`. -/
def getDayOfWeek (tm : TargetMonth) (dayIndex : Nat) : Nat :=
  let weekday := (toOrdinal tm.year tm.month (dayIndex + 1) - 1) % 7
  (weekday + 1) % 7

/-- `self.num_members = len(self.members)`. -/
def numMembers (inp : Input) : Nat := inp.schedule.length

/-- `self.num_days = self._get_days_in_month()`. -/
def numDays (inp : Input) : Nat := daysInMonth inp.option.targetMonth

/-- The `m`-th row of `self.schedule_input` (members are indexed by list position). -/
def memberAt (inp : Input) (m : Nat) : MemberSchedule := inp.schedule.getD m default

/-- The pre-filled code of member `m` on day `d`.  Every loop in the source guards
`d < len(days)` and treats a missing entry exactly like `WorkCode.EMPTY` (it skips,
counts nothing, or leaves the cell to the solver), so the embedding reads the list
with default `""`. -/
def cellCode (inp : Input) (m d : Nat) : String :=
  (memberAt inp m).days.getD d WorkCode.EMPTY

/-- `day_of_week in self.reduced_staffing_days`. -/
def isReducedDay (inp : Input) (d : Nat) : Bool :=
  inp.option.reducedStaffingDays.contains (getDayOfWeek inp.option.targetMonth d)

/-- A full valuation of the CP-SAT booleans `shifts[(m, d, s)]`. -/
abbrev Assignment := Nat → Nat → ShiftType → Bool

/-- `_add_basic_constraints`: each member has exactly one shift type per day
(`sum(shifts[(m, d, s)] for s in range(4)) == 1`). -/
def basicConstraints (inp : Input) (σ : Assignment) : Prop :=
  ∀ m, m < numMembers inp → ∀ d, d < numDays inp →
    (σ m d ShiftType.OFF).toNat + (σ m d ShiftType.AM).toNat
      + (σ m d ShiftType.PM_HC).toNat + (σ m d ShiftType.PM_IA).toNat = 1

/-- The shift type a pre-filled code is pinned to by
`_add_predefined_schedule_constraints`: R/RQ and DT pin OFF, Z/ZT pin AM,
HC/HCT pin PM_HC, IA/IAT pin PM_IA.  `EMPTY` is skipped, and a code matching no
branch of the `if`/`elif` chain falls through with no constraint (`none`). -/
def pinnedType (code : String) : Option ShiftType :=
  if code = WorkCode.RQ ∨ code = WorkCode.R then some ShiftType.OFF
  else if code = WorkCode.Z ∨ code = WorkCode.ZT then some ShiftType.AM
  else if code = WorkCode.HC ∨ code = WorkCode.HCT then some ShiftType.PM_HC
  else if code = WorkCode.IA ∨ code = WorkCode.IAT then some ShiftType.PM_IA
  else if code = WorkCode.DT then some ShiftType.OFF
  else none

/-- `_add_predefined_schedule_constraints`: for every cell within the month whose
code pins a shift type, the corresponding flag is forced to 1. -/
def predefinedConstraints (inp : Input) (σ : Assignment) : Prop :=
  ∀ m, m < numMembers inp → ∀ d, d < numDays inp → ∀ t : ShiftType,
    pinnedType (cellCode inp m d) = some t → σ m d t = true

/-- `zt_count` in `_add_daily_staffing_constraints`: pre-filled ZT cells on day `d`. -/
def ztCount (inp : Input) (d : Nat) : Nat :=
  ∑ m ∈ Finset.range (numMembers inp),
    if cellCode inp m d = WorkCode.ZT then 1 else 0

/-- `hct_iat_count`: pre-filled HCT or IAT cells on day `d`. -/
def hctIatCount (inp : Input) (d : Nat) : Nat :=
  ∑ m ∈ Finset.range (numMembers inp),
    if cellCode inp m d = WorkCode.HCT ∨ cellCode inp m d = WorkCode.IAT then 1 else 0

/-- `am_total`: sum of the AM flags of all members on day `d`. -/
def amTotal (inp : Input) (σ : Assignment) (d : Nat) : Nat :=
  ∑ m ∈ Finset.range (numMembers inp), (σ m d ShiftType.AM).toNat

/-- `pm_total`: sum of the PM_HC and PM_IA flags of all members on day `d`. -/
def pmTotal (inp : Input) (σ : Assignment) (d : Nat) : Nat :=
  ∑ m ∈ Finset.range (numMembers inp),
    ((σ m d ShiftType.PM_HC).toNat + (σ m d ShiftType.PM_IA).toNat)

/-- The single AM staffing constraint the builder adds for day `d`.  Both the
reduced-day and the normal-day branch of the source are identical for AM:
with `zt_count > 0` it is `(am_total - zt_count) * 2 + zt_count == 2`, otherwise
`am_total == 1`. -/
def amStaffingConstraint (inp : Input) (σ : Assignment) (d : Nat) : Prop :=
  if isReducedDay inp d then
    (if 0 < ztCount inp d then
      ((amTotal inp σ d : ℤ) - ztCount inp d) * 2 + ztCount inp d = 2
     else (amTotal inp σ d : ℤ) = 1)
  else
    (if 0 < ztCount inp d then
      ((amTotal inp σ d : ℤ) - ztCount inp d) * 2 + ztCount inp d = 2
     else (amTotal inp σ d : ℤ) = 1)

/-- The single PM staffing constraint the builder adds for day `d`: doubled target
2 on reduced days and 4 on normal days when `hct_iat_count > 0`, otherwise the
degenerate `pm_total == 1` resp. `pm_total == 2`. -/
def pmStaffingConstraint (inp : Input) (σ : Assignment) (d : Nat) : Prop :=
  if isReducedDay inp d then
    (if 0 < hctIatCount inp d then
      ((pmTotal inp σ d : ℤ) - hctIatCount inp d) * 2 + hctIatCount inp d = 2
     else (pmTotal inp σ d : ℤ) = 1)
  else
    (if 0 < hctIatCount inp d then
      ((pmTotal inp σ d : ℤ) - hctIatCount inp d) * 2 + hctIatCount inp d = 4
     else (pmTotal inp σ d : ℤ) = 2)

/-- `_add_daily_staffing_constraints`: one AM constraint and one PM constraint per day. -/
def dailyStaffingConstraints (inp : Input) (σ : Assignment) : Prop :=
  ∀ d, d < numDays inp → amStaffingConstraint inp σ d ∧ pmStaffingConstraint inp σ d

/-- `self.option["dayOffIndividual"].get(member_name, 0)`. -/
def targetDayoff (inp : Input) (name : String) : Int :=
  (List.lookup name inp.option.dayOffIndividual).getD 0

/-- `off_count`: the sum of member `m`'s OFF flags over every day of the month. -/
def offCount (inp : Input) (σ : Assignment) (m : Nat) : Nat :=
  ∑ d ∈ Finset.range (numDays inp), (σ m d ShiftType.OFF).toNat

/-- `_add_dayoff_constraints`: per member, `off_count == target_dayoff`. -/
def dayoffConstraints (inp : Input) (σ : Assignment) : Prop :=
  ∀ m, m < numMembers inp →
    (offCount inp σ m : ℤ) = targetDayoff inp (memberAt inp m).name

/-- `_add_rq_adjacent_constraints`: next to a fixed RQ cell, an originally-empty
cell may not receive the OFF flag.  The source emits the previous-day and the
next-day constraint inside one loop over (member, day); they are stated here as
the two conjuncts. -/
def rqAdjacentConstraints (inp : Input) (σ : Assignment) : Prop :=
  (∀ m, m < numMembers inp → ∀ d, d < numDays inp →
    cellCode inp m d = WorkCode.RQ → 0 < d →
      cellCode inp m (d - 1) = WorkCode.EMPTY → σ m (d - 1) ShiftType.OFF = false) ∧
  (∀ m, m < numMembers inp → ∀ d, d < numDays inp →
    cellCode inp m d = WorkCode.RQ → d < numDays inp - 1 →
      cellCode inp m (d + 1) = WorkCode.EMPTY → σ m (d + 1) ShiftType.OFF = false)

/-- `_add_pm_to_am_constraints`: `PM_HC[d] + PM_IA[d] + AM[d+1] <= 1` for every
member and every `d` in `range(num_days - 1)`. -/
def pmToAmConstraints (inp : Input) (σ : Assignment) : Prop :=
  ∀ m, m < numMembers inp → ∀ d, d < numDays inp - 1 →
    (σ m d ShiftType.PM_HC).toNat + (σ m d ShiftType.PM_IA).toNat
      + (σ m (d + 1) ShiftType.AM).toNat ≤ 1

/-- `_add_continuous_work_constraints`: for each member, one constraint per window
start `d in range(num_days - limit)` bounding the sum of the dimension's flags over
the `limit + 1` days of the window by the limit, for each of the AM, PM and total
dimensions. -/
def continuousWorkConstraints (inp : Input) (σ : Assignment) : Prop :=
  ∀ m, m < numMembers inp →
    ((∀ d, d < numDays inp - inp.option.continuousWorkLimit.am →
        (∑ i ∈ Finset.range (inp.option.continuousWorkLimit.am + 1),
            (σ m (d + i) ShiftType.AM).toNat)
          ≤ inp.option.continuousWorkLimit.am) ∧
     (∀ d, d < numDays inp - inp.option.continuousWorkLimit.pm →
        (∑ i ∈ Finset.range (inp.option.continuousWorkLimit.pm + 1),
            ((σ m (d + i) ShiftType.PM_HC).toNat + (σ m (d + i) ShiftType.PM_IA).toNat))
          ≤ inp.option.continuousWorkLimit.pm) ∧
     (∀ d, d < numDays inp - inp.option.continuousWorkLimit.total →
        (∑ i ∈ Finset.range (inp.option.continuousWorkLimit.total + 1),
            ((σ m (d + i) ShiftType.AM).toNat + (σ m (d + i) ShiftType.PM_HC).toNat
              + (σ m (d + i) ShiftType.PM_IA).toNat))
          ≤ inp.option.continuousWorkLimit.total))

/-- `_add_soft_constraints`: when `dayOffStream == "on"` one auxiliary boolean
`consecutive_off_m{m}_d{d}` with penalty weight `-5` is created per member and
adjacent day pair.  The `workCodeAverage == "on"` branch of the source computes
member-wise counts but ends in `pass`: it appends nothing to the penalty list and
adds no constraint, so it contributes nothing here. -/
def softPenalties (inp : Input) : List (Int × (Nat × Nat)) :=
  if inp.option.dayOffStream = "on" then
    ((List.range (numMembers inp)).map (fun m =>
      (List.range (numDays inp - 1)).map (fun d => ((-5 : Int), (m, d))))).flatten
  else []

/-- The reified definition of the `consecutive_off` auxiliary booleans:
`Add(OFF[d] + OFF[d+1] == 2).OnlyEnforceIf(b)` and
`Add(OFF[d] + OFF[d+1] < 2).OnlyEnforceIf(b.Not())`. -/
def consecutiveOffReif (inp : Input) (σ : Assignment) (aux : Nat → Nat → Bool) : Prop :=
  inp.option.dayOffStream = "on" →
    ∀ m, m < numMembers inp → ∀ d, d < numDays inp - 1 →
      ((aux m d = true →
          (σ m d ShiftType.OFF).toNat + (σ m (d + 1) ShiftType.OFF).toNat = 2) ∧
       (aux m d = false →
          (σ m d ShiftType.OFF).toNat + (σ m (d + 1) ShiftType.OFF).toNat < 2))

/-- The conjunction of every hard-constraint family `generate` adds to the model. -/
def hardConstraints (inp : Input) (σ : Assignment) : Prop :=
  basicConstraints inp σ ∧ predefinedConstraints inp σ ∧
    dailyStaffingConstraints inp σ ∧ dayoffConstraints inp σ ∧
    rqAdjacentConstraints inp σ ∧ pmToAmConstraints inp σ ∧
    continuousWorkConstraints inp σ

/-- The immutable constraint model the builder produces: the shift-variable grid
dimensions, the hard constraints, the reified soft-constraint auxiliaries, the
penalty list, and the objective (`_set_objective` minimizes the weighted penalty
sum iff the penalty list is non-empty, otherwise there is no objective). -/
structure BuiltModel where
  shiftVarGrid : Nat × Nat
  hard : Assignment → Prop
  softReif : Assignment → (Nat → Nat → Bool) → Prop
  penalties : List (Int × (Nat × Nat))
  objective : Option (List (Int × (Nat × Nat)))

/-- The model produced by `generate`'s build phase (`_create_variables` through
`_set_objective`) as a function of the input. -/
def buildModel (inp : Input) : BuiltModel :=
  { shiftVarGrid := (numMembers inp, numDays inp)
    hard := hardConstraints inp
    softReif := consecutiveOffReif inp
    penalties := softPenalties inp
    objective := if softPenalties inp = [] then none else some (softPenalties inp) }

/-- One output cell of `_extract_solution`: the pre-filled code when present,
otherwise the first true flag in the order OFF → R, AM → Z, PM_HC → HC,
PM_IA → IA, with the fallback `""` when no flag is true. -/
def extractDay (inp : Input) (σ : Assignment) (m d : Nat) : String :=
  if cellCode inp m d ≠ WorkCode.EMPTY then cellCode inp m d
  else if σ m d ShiftType.OFF then WorkCode.R
  else if σ m d ShiftType.AM then WorkCode.Z
  else if σ m d ShiftType.PM_HC then WorkCode.HC
  else if σ m d ShiftType.PM_IA then WorkCode.IA
  else WorkCode.EMPTY

/-- The value `_extract_solution` returns: a status (always `"success"`) and the
reconstructed per-member day rows. -/
structure ExtractResult where
  status : String
  schedule : List (String × List String)
deriving DecidableEq, Inhabited, Repr

/-- `_extract_solution`. -/
def extractSolution (inp : Input) (σ : Assignment) : ExtractResult :=
  { status := "success"
    schedule := (List.range (numMembers inp)).map (fun m =>
      ((memberAt inp m).name,
        (List.range (numDays inp)).map (fun d => extractDay inp σ m d))) }

/-- CP-SAT solver statuses the engine interprets. -/
inductive CpStatus : Type where
  | OPTIMAL
  | FEASIBLE
  | INFEASIBLE
  | MODEL_INVALID
  | UNKNOWN
deriving DecidableEq, Repr

/-- The external solving backend and the wall clock, abstracted: attempt `i`
(solved with `random_seed = i`) yields a status and an assignment, and
`elapsedAt i` is the value of `time.time() - start_time` observed at the top of
loop iteration `i`; `finalElapsed` is the elapsed time measured after the loop. -/
structure SolveOracle where
  statusAt : Nat → CpStatus
  assignAt : Nat → Assignment
  elapsedAt : Nat → ℚ
  finalElapsed : ℚ

/-- The result `generate` returns (the Korean error messages of the source carry
an interpolated elapsed time, elided here). -/
inductive GenResult : Type where
  | success (schedules : List (List (String × List String))) (count : Nat) (elapsed : ℚ)
  | error (message : String)
deriving DecidableEq

/-- Whether a result is the error case. -/
def GenResult.isError : GenResult → Bool
  | GenResult.error _ => true
  | _ => false

/-- The collection loop of `_solve_multiple`, started at attempt index `i` with
`n` attempts remaining: break when the remaining budget is not positive, solve,
and on OPTIMAL or FEASIBLE status append the extracted schedule (whose status is
checked to be `"success"`, as the source does); on any other status continue. -/
def runAttempts (inp : Input) (oracle : SolveOracle) (maxTotal : ℚ) :
    Nat → Nat → List (List (String × List String))
  | _, 0 => []
  | i, Nat.succ n =>
    if maxTotal - oracle.elapsedAt i ≤ 0 then []
    else
      if oracle.statusAt i = CpStatus.OPTIMAL ∨ oracle.statusAt i = CpStatus.FEASIBLE then
        (if (extractSolution inp (oracle.assignAt i)).status = "success" then
          (extractSolution inp (oracle.assignAt i)).schedule
            :: runAttempts inp oracle maxTotal (i + 1) n
         else runAttempts inp oracle maxTotal (i + 1) n)
      else runAttempts inp oracle maxTotal (i + 1) n

/-- `_solve_multiple(num_solutions, max_total_time)`: run the attempt loop from
index 0; error iff the collected list is empty, otherwise success with the list,
its length as `count`, and the total elapsed time. -/
def solveMultiple (inp : Input) (oracle : SolveOracle) (numSolutions : Nat)
    (maxTotal : ℚ) : GenResult :=
  let schedules := runAttempts inp oracle maxTotal 0 numSolutions
  if schedules.length = 0 then
    GenResult.error "스케줄을 생성할 수 없습니다."
  else
    GenResult.success schedules schedules.length oracle.finalElapsed

/-- The closed vocabulary of external codes, `EMPTY` included. -/
def vocabCodes : List String :=
  [WorkCode.EMPTY, WorkCode.R, WorkCode.RQ, WorkCode.Z, WorkCode.ZT,
   WorkCode.HC, WorkCode.HCT, WorkCode.IA, WorkCode.IAT, WorkCode.DT]

/-- The staffing weight of claim C1 for the AM side of a cell: a fixed ZT cell
counts 0.5, a DT cell counts 0, and otherwise the cell counts its AM flag
(1 for a fixed Z cell or a solver-assigned AM cell, 0 for anything else). -/
def amWeight (inp : Input) (σ : Assignment) (m d : Nat) : ℚ :=
  if cellCode inp m d = WorkCode.ZT then 1 / 2
  else if cellCode inp m d = WorkCode.DT then 0
  else ((σ m d ShiftType.AM).toNat : ℚ)

/-- The staffing-weighted AM total of day `d`. -/
def weightedAmTotal (inp : Input) (σ : Assignment) (d : Nat) : ℚ :=
  ∑ m ∈ Finset.range (numMembers inp), amWeight inp σ m d

/-- The staffing weight of claim C1 for the PM side of a cell: a fixed HCT or IAT
cell counts 0.5, and otherwise the cell counts its PM_HC flag plus its PM_IA flag
(1 for a fixed HC/IA cell or a solver-assigned PM cell, 0 for anything else). -/
def pmWeight (inp : Input) (σ : Assignment) (m d : Nat) : ℚ :=
  if cellCode inp m d = WorkCode.HCT ∨ cellCode inp m d = WorkCode.IAT then 1 / 2
  else (((σ m d ShiftType.PM_HC).toNat + (σ m d ShiftType.PM_IA).toNat : ℕ) : ℚ)

/-- The staffing-weighted PM total of day `d`. -/
def weightedPmTotal (inp : Input) (σ : Assignment) (d : Nat) : ℚ :=
  ∑ m ∈ Finset.range (numMembers inp), pmWeight inp σ m d

/-- The day-off constraint as claim C4 describes it (NOT as the source implements
it): the OFF-flag sum restricted to decision variables, i.e. to cells that were
EMPTY in the input. -/
def dayoffConstraintsClaimed (inp : Input) (σ : Assignment) : Prop :=
  ∀ m, m < numMembers inp →
    ((∑ d ∈ (Finset.range (numDays inp)).filter
        (fun d => cellCode inp m d = WorkCode.EMPTY),
      (σ m d ShiftType.OFF).toNat : ℤ) = targetDayoff inp (memberAt inp m).name)

/-- The number of pre-filled OFF-category cells (R, RQ or DT) of member `m`. -/
def fixedOffCount (inp : Input) (m : Nat) : Nat :=
  ((Finset.range (numDays inp)).filter
    (fun d => cellCode inp m d ∈ ([WorkCode.R, WorkCode.RQ, WorkCode.DT] : List String))).card

/-- Pointwise update of an assignment at one (member, day) cell. -/
def updateAt (σ : Assignment) (m d : Nat) (f : ShiftType → Bool) : Assignment :=
  fun m' d' t => if m' = m ∧ d' = d then f t else σ m' d' t

instance decBasicConstraints (inp : Input) (σ : Assignment) :
    Decidable (basicConstraints inp σ) := by
  unfold basicConstraints; infer_instance

instance decPredefinedConstraints (inp : Input) (σ : Assignment) :
    Decidable (predefinedConstraints inp σ) := by
  unfold predefinedConstraints; infer_instance

instance decAmStaffingConstraint (inp : Input) (σ : Assignment) (d : Nat) :
    Decidable (amStaffingConstraint inp σ d) := by
  unfold amStaffingConstraint; infer_instance

instance decPmStaffingConstraint (inp : Input) (σ : Assignment) (d : Nat) :
    Decidable (pmStaffingConstraint inp σ d) := by
  unfold pmStaffingConstraint; infer_instance

instance decDailyStaffingConstraints (inp : Input) (σ : Assignment) :
    Decidable (dailyStaffingConstraints inp σ) := by
  unfold dailyStaffingConstraints; infer_instance

instance decDayoffConstraints (inp : Input) (σ : Assignment) :
    Decidable (dayoffConstraints inp σ) := by
  unfold dayoffConstraints; infer_instance

instance decRqAdjacentConstraints (inp : Input) (σ : Assignment) :
    Decidable (rqAdjacentConstraints inp σ) := by
  unfold rqAdjacentConstraints
  exact @instDecidableAnd _ _ inferInstance inferInstance

instance decPmToAmConstraints (inp : Input) (σ : Assignment) :
    Decidable (pmToAmConstraints inp σ) := by
  unfold pmToAmConstraints; infer_instance

instance decContinuousWorkConstraints (inp : Input) (σ : Assignment) :
    Decidable (continuousWorkConstraints inp σ) := by
  unfold continuousWorkConstraints; infer_instance

instance decDayoffConstraintsClaimed (inp : Input) (σ : Assignment) :
    Decidable (dayoffConstraintsClaimed inp σ) := by
  unfold dayoffConstraintsClaimed; infer_instance

/-- A baseline option set for the concrete check instances: February 2026
(28 days), no reduced-staffing weekdays. -/
def optBase : Options :=
  { dayOffIndividual := []
    dayOffStream := "off"
    workCodeAverage := "off"
    continuousWorkLimit := { am := 5, pm := 4, total := 6 }
    targetMonth := { year := 2026, month := 2 }
    reducedStaffingDays := [] }

/-- Four members; A and B have a fixed ZT (half-weight morning training) on day 0. -/
def inpC1 : Input :=
  { schedule := [⟨"A", ["ZT"]⟩, ⟨"B", ["ZT"]⟩, ⟨"C", []⟩, ⟨"D", []⟩]
    option := optBase }

/-- On day 0 members A and B do AM (pinned by ZT), C does PM_HC, D does PM_IA;
from day 1 on, A does AM, B does PM_HC, C does PM_IA, D rests. -/
def sigC1 : Assignment := fun m d t =>
  if d = 0 then
    (if m ≤ 1 then t == ShiftType.AM
     else if m = 2 then t == ShiftType.PM_HC
     else t == ShiftType.PM_IA)
  else
    (if m = 0 then t == ShiftType.AM
     else if m = 1 then t == ShiftType.PM_HC
     else if m = 2 then t == ShiftType.PM_IA
     else t == ShiftType.OFF)

/-- One member with a fixed R on day 0 and a day-off quota of 3. -/
def inpC2 : Input :=
  { schedule := [⟨"A", ["R"]⟩]
    option := { optBase with dayOffIndividual := [("A", 3)] } }

/-- OFF on days 0..2, AM afterwards. -/
def sigC2 : Assignment := fun _ d t =>
  if d < 3 then t == ShiftType.OFF else t == ShiftType.AM

/-- One member with the unrecognized pre-filled code `"X"` on day 0. -/
def inpC3 : Input :=
  { schedule := [⟨"A", ["X"]⟩]
    option := optBase }

/-- Every cell OFF. -/
def sigC3off : Assignment := fun _ _ t => t == ShiftType.OFF

/-- Every cell AM. -/
def sigC3am : Assignment := fun _ _ t => t == ShiftType.AM

/-- One member with a fixed R on day 0 and a day-off quota of 1. -/
def inpC4 : Input :=
  { schedule := [⟨"A", ["R"]⟩]
    option := { optBase with dayOffIndividual := [("A", 1)] } }

/-- OFF on day 0 only, AM afterwards. -/
def sigC4 : Assignment := fun _ d t =>
  if d = 0 then t == ShiftType.OFF else t == ShiftType.AM

/-- One member, nothing pre-filled. -/
def inpC5 : Input :=
  { schedule := [⟨"A", []⟩]
    option := optBase }

/-- AM every day. -/
def sigC5 : Assignment := fun _ _ t => t == ShiftType.AM

/-- One member with tight run-length limits (am 1, pm 1, total 2). -/
def inpC6 : Input :=
  { schedule := [⟨"A", []⟩]
    option := { optBase with continuousWorkLimit := { am := 1, pm := 1, total := 2 } } }

/-- AM on even days, OFF on odd days. -/
def sigC6 : Assignment := fun _ d t =>
  if d % 2 = 0 then t == ShiftType.AM else t == ShiftType.OFF

/-- One member, nothing pre-filled (multi-solve driver instance). -/
def inpC8 : Input :=
  { schedule := [⟨"A", []⟩]
    option := optBase }

/-- A backend oracle that always reports FEASIBLE instantly. -/
def oracleC8 : SolveOracle :=
  { statusAt := fun _ => CpStatus.FEASIBLE
    assignAt := fun _ => fun _ _ t => t == ShiftType.AM
    elapsedAt := fun _ => 0
    finalElapsed := 1 }

/-- Member A has a quota entry; member B does not and has a fixed R on day 0. -/
def inpC9 : Input :=
  { schedule := [⟨"A", []⟩, ⟨"B", ["R"]⟩]
    option := { optBase with dayOffIndividual := [("A", 1)] } }

/-- Everybody AM every day. -/
def sigC9 : Assignment := fun _ _ t => t == ShiftType.AM

/-- One member with a fixed Z on day 0. -/
def inpC10 : Input :=
  { schedule := [⟨"A", ["Z"]⟩]
    option := optBase }

/-- AM on day 0, PM_HC afterwards. -/
def sigC10 : Assignment := fun _ d t =>
  if d = 0 then t == ShiftType.AM else t == ShiftType.PM_HC

/-- Under the exactly-one constraint, a true flag makes every other flag of the
same (member, day) cell false. -/
theorem flags_unique (inp : Input) (σ : Assignment) (m d : Nat)
    (hm : m < numMembers inp) (hd : d < numDays inp)
    (hb : basicConstraints inp σ) :
    ∀ t, σ m d t = true → ∀ t', t' ≠ t → σ m d t' = false := by
  intro t ht t' hne
  have h := hb m hm d hd
  by_contra hcon
  have ht' : σ m d t' = true := by
    cases hx : σ m d t'
    · exact absurd hx hcon
    · rfl
  cases t <;> cases t' <;>
    first
    | exact hne rfl
    | (rw [ht, ht'] at h; simp only [Bool.toNat_true] at h; omega)

/-- C5: for every member and every day `d` with `d + 1 < num_days` the builder
adds `PM_HC[m,d] + PM_IA[m,d] + AM[m,d+1] <= 1` (that is `pmToAmConstraints`);
consequently in every assignment satisfying these constraints no member has a
PM-category day (PM_HC or PM_IA) immediately followed by an AM-category day. -/
theorem pm_to_am_prohibition (inp : Input) (σ : Assignment)
    (h : pmToAmConstraints inp σ) :
    ∀ m, m < numMembers inp → ∀ d, d + 1 < numDays inp →
      ¬((σ m d ShiftType.PM_HC = true ∨ σ m d ShiftType.PM_IA = true) ∧
        σ m (d + 1) ShiftType.AM = true) := by
  intro m hm d hd hcon
  have hc := h m hm d (by omega)
  obtain ⟨hpm, ham⟩ := hcon
  rw [ham] at hc
  rcases hpm with h1 | h1 <;> rw [h1] at hc <;>
    simp only [Bool.toNat_true] at hc <;> omega

/-- C5 check: a concrete assignment satisfying the PM to AM constraints, at which
the prohibition is realized for member 0 and day 0. -/
theorem pm_to_am_prohibition_witness :
    pmToAmConstraints inpC5 sigC5 ∧
      ¬((sigC5 0 0 ShiftType.PM_HC = true ∨ sigC5 0 0 ShiftType.PM_IA = true) ∧
        sigC5 0 1 ShiftType.AM = true) :=
  ⟨by decide, pm_to_am_prohibition inpC5 sigC5 (by decide) 0 (by decide) 0 (by decide)⟩

/-- C6: one run-length constraint per member, dimension and valid window start
(`continuousWorkConstraints`); consequently every window of `limit + 1`
consecutive days that fits in the month contains at most `am` AM days, at most
`pm` PM days, and at most `total` any-work days, each dimension with its own
limit. -/
theorem continuous_work_windows (inp : Input) (σ : Assignment)
    (h : continuousWorkConstraints inp σ) :
    ∀ m, m < numMembers inp →
      ((∀ d, d + (inp.option.continuousWorkLimit.am + 1) ≤ numDays inp →
          ((Finset.range (inp.option.continuousWorkLimit.am + 1)).filter
            (fun i => σ m (d + i) ShiftType.AM = true)).card
            ≤ inp.option.continuousWorkLimit.am) ∧
       (∀ d, d + (inp.option.continuousWorkLimit.pm + 1) ≤ numDays inp →
          ((Finset.range (inp.option.continuousWorkLimit.pm + 1)).filter
            (fun i => σ m (d + i) ShiftType.PM_HC = true ∨
              σ m (d + i) ShiftType.PM_IA = true)).card
            ≤ inp.option.continuousWorkLimit.pm) ∧
       (∀ d, d + (inp.option.continuousWorkLimit.total + 1) ≤ numDays inp →
          ((Finset.range (inp.option.continuousWorkLimit.total + 1)).filter
            (fun i => σ m (d + i) ShiftType.AM = true ∨
              σ m (d + i) ShiftType.PM_HC = true ∨
              σ m (d + i) ShiftType.PM_IA = true)).card
            ≤ inp.option.continuousWorkLimit.total)) := by
  intro m hm
  obtain ⟨h1, h2, h3⟩ := h m hm
  refine ⟨fun d hd => ?_, fun d hd => ?_, fun d hd => ?_⟩
  · refine le_trans ?_ (h1 d (by omega))
    rw [Finset.card_filter]
    refine Finset.sum_le_sum fun i _ => ?_
    cases hx : σ m (d + i) ShiftType.AM <;> simp [hx]
  · refine le_trans ?_ (h2 d (by omega))
    rw [Finset.card_filter]
    refine Finset.sum_le_sum fun i _ => ?_
    cases hx : σ m (d + i) ShiftType.PM_HC <;>
      cases hy : σ m (d + i) ShiftType.PM_IA <;> simp [hx, hy]
  · refine le_trans ?_ (h3 d (by omega))
    rw [Finset.card_filter]
    refine Finset.sum_le_sum fun i _ => ?_
    cases hx : σ m (d + i) ShiftType.AM <;> cases hy : σ m (d + i) ShiftType.PM_HC <;>
      cases hz : σ m (d + i) ShiftType.PM_IA <;> simp [hx, hy, hz]

/-- C6 check: a concrete assignment satisfying the run-length constraints of an
instance with limits am 1 / pm 1 / total 2, at which the first window of 2 days
contains at most 1 AM day. -/
theorem continuous_work_windows_witness :
    continuousWorkConstraints inpC6 sigC6 ∧
      ((Finset.range (inpC6.option.continuousWorkLimit.am + 1)).filter
        (fun i => sigC6 0 (0 + i) ShiftType.AM = true)).card
        ≤ inpC6.option.continuousWorkLimit.am :=
  ⟨by decide,
   (continuous_work_windows inpC6 sigC6 (by decide) 0 (by decide)).1 0 (by decide)⟩

/-- C10: under the exactly-one-category constraint alone, the final fallback
branch of `_extract_solution` (appending `""`) is unreachable: every extracted
cell is the original non-empty pre-filled code verbatim or one of the display
codes R, Z, HC, IA. -/
theorem extract_never_empty (inp : Input) (σ : Assignment)
    (hb : basicConstraints inp σ) :
    ∀ m, m < numMembers inp → ∀ d, d < numDays inp →
      extractDay inp σ m d ≠ WorkCode.EMPTY ∧
      ((cellCode inp m d ≠ WorkCode.EMPTY ∧ extractDay inp σ m d = cellCode inp m d) ∨
        extractDay inp σ m d ∈
          ([WorkCode.R, WorkCode.Z, WorkCode.HC, WorkCode.IA] : List String)) := by
  intro m hm d hd
  have h := hb m hm d hd
  by_cases hc : cellCode inp m d = WorkCode.EMPTY
  · cases hO : σ m d ShiftType.OFF <;> cases hA : σ m d ShiftType.AM <;>
      cases hH : σ m d ShiftType.PM_HC <;> cases hI : σ m d ShiftType.PM_IA <;>
        simp_all [extractDay, WorkCode.EMPTY, WorkCode.R, WorkCode.Z,
          WorkCode.HC, WorkCode.IA]
  · have he : extractDay inp σ m d = cellCode inp m d := by
      simp only [extractDay]
      rw [if_pos hc]
    exact ⟨by rw [he]; exact hc, Or.inl ⟨hc, he⟩⟩

/-- C10 check: a concrete assignment satisfying the exactly-one constraint, at
which the extracted cell of member 0 on day 1 is a display code (and the cell of
day 0 reproduces the pre-filled Z). -/
theorem extract_never_empty_witness :
    basicConstraints inpC10 sigC10 ∧
      (extractDay inpC10 sigC10 0 1 ≠ WorkCode.EMPTY ∧
        ((cellCode inpC10 0 1 ≠ WorkCode.EMPTY ∧
            extractDay inpC10 sigC10 0 1 = cellCode inpC10 0 1) ∨
          extractDay inpC10 sigC10 0 1 ∈
            ([WorkCode.R, WorkCode.Z, WorkCode.HC, WorkCode.IA] : List String))) :=
  ⟨by decide, extract_never_empty inpC10 sigC10 (by decide) 0 (by decide) 1 (by decide)⟩

/-- C3 counterexample: on the concrete input whose member 0 carries the
unrecognized non-empty code `"X"` on day 0, the builder surfaces no failure and
adds no constraint for that cell: two assignments that both satisfy the
exactly-one and fixed-cell-pinning constraints give the cell OFF resp. AM — the
cell is a free decision variable — while the extractor reproduces `"X"`
verbatim. -/
theorem unrecognized_code_silently_ignored_cex :
    cellCode inpC3 0 0 = "X" ∧
    basicConstraints inpC3 sigC3off ∧ predefinedConstraints inpC3 sigC3off ∧
    basicConstraints inpC3 sigC3am ∧ predefinedConstraints inpC3 sigC3am ∧
    sigC3off 0 0 ShiftType.OFF = true ∧ sigC3am 0 0 ShiftType.AM = true ∧
    extractDay inpC3 sigC3off 0 0 = "X" := by decide

/-- C3 as amended: a non-empty code outside the closed vocabulary is silently
ignored by the builder — `_add_predefined_schedule_constraints` pins no shift
type for it (`pinnedType` returns `none`), and the cell's category flags remain
free: re-assigning them arbitrarily preserves the fixed-cell constraints. -/
theorem unrecognized_code_no_pin :
    (∀ code : String, code ∉ vocabCodes → pinnedType code = none) ∧
    (∀ (inp : Input) (σ : Assignment) (m d : Nat) (f : ShiftType → Bool),
      pinnedType (cellCode inp m d) = none →
      predefinedConstraints inp σ → predefinedConstraints inp (updateAt σ m d f)) := by
  constructor
  · intro code h
    simp only [vocabCodes, List.mem_cons, List.not_mem_nil, or_false, not_or] at h
    obtain ⟨h0, h1, h2, h3, h4, h5, h6, h7, h8, h9⟩ := h
    unfold pinnedType
    rw [if_neg (by simp [h1, h2]), if_neg (by simp [h3, h4]),
      if_neg (by simp [h5, h6]), if_neg (by simp [h7, h8]), if_neg h9]
  · intro inp σ m d f hnone hp m' hm' d' hd' t hpin
    simp only [updateAt]
    by_cases h : m' = m ∧ d' = d
    · exfalso
      obtain ⟨hm2, hd2⟩ := h
      rw [hm2, hd2, hnone] at hpin
      exact Option.noConfusion hpin
    · rw [if_neg h]
      exact hp m' hm' d' hd' t hpin

/-- C3 amended check: the concrete unrecognized code `"X"` pins nothing, and
re-assigning the `"X"` cell of the concrete instance preserves the fixed-cell
constraints. -/
theorem unrecognized_code_no_pin_witness :
    ("X" ∉ vocabCodes ∧ pinnedType "X" = none) ∧
    (pinnedType (cellCode inpC3 0 0) = none ∧
      predefinedConstraints inpC3 sigC3off ∧
      predefinedConstraints inpC3 (updateAt sigC3off 0 0 (fun t => t == ShiftType.AM))) :=
  ⟨⟨by decide, unrecognized_code_no_pin.1 "X" (by decide)⟩,
   ⟨by decide, by decide,
    unrecognized_code_no_pin.2 inpC3 sigC3off 0 0 (fun t => t == ShiftType.AM)
      (by decide) (by decide)⟩⟩

/-- C4 counterexample: on the concrete instance with a fixed R on day 0 and
quota 1, the assignment that rests exactly on day 0 satisfies the builder's
day-off constraint (whose sum ranges over all days, the fixed cell included)
but violates the claim's decision-variables-only reading of that sum. -/
theorem dayoff_sum_decision_only_cex :
    predefinedConstraints inpC4 sigC4 ∧ dayoffConstraints inpC4 sigC4 ∧
      ¬ dayoffConstraintsClaimed inpC4 sigC4 := by decide

/-- C4 as amended: the OFF-flag sum of `_add_dayoff_constraints` ranges over all
days of the month, fixed cells included; under the fixed-cell pinning the
constraint says (number of pre-filled R/RQ/DT cells) + (OFF flags of the
remaining cells) = quota, so the caller-supplied quota must count the fixed
OFF-category cells as well. -/
theorem dayoff_sum_includes_fixed (inp : Input) (σ : Assignment) (m : Nat)
    (hm : m < numMembers inp) (hp : predefinedConstraints inp σ)
    (hq : dayoffConstraints inp σ) :
    (fixedOffCount inp m : ℤ) +
      (∑ d ∈ (Finset.range (numDays inp)).filter
          (fun d => cellCode inp m d ∉ ([WorkCode.R, WorkCode.RQ, WorkCode.DT] : List String)),
        ((σ m d ShiftType.OFF).toNat : ℤ)) =
      targetDayoff inp (memberAt inp m).name := by
  have h := hq m hm
  rw [← h]
  unfold offCount fixedOffCount
  push_cast
  have hsplit := Finset.sum_filter_add_sum_filter_not (Finset.range (numDays inp))
    (fun d => cellCode inp m d ∈ ([WorkCode.R, WorkCode.RQ, WorkCode.DT] : List String))
    (fun d => ((σ m d ShiftType.OFF).toNat : ℤ))
  rw [← hsplit]
  congr 1
  have hone : ∀ d ∈ (Finset.range (numDays inp)).filter
      (fun d => cellCode inp m d ∈ ([WorkCode.R, WorkCode.RQ, WorkCode.DT] : List String)),
      ((σ m d ShiftType.OFF).toNat : ℤ) = 1 := by
    intro d hd
    rw [Finset.mem_filter, Finset.mem_range] at hd
    obtain ⟨hdlt, hdc⟩ := hd
    have hpin : pinnedType (cellCode inp m d) = some ShiftType.OFF := by
      simp only [List.mem_cons, List.not_mem_nil, or_false] at hdc
      rcases hdc with hc | hc | hc <;> rw [hc] <;> decide
    rw [hp m hm d hdlt ShiftType.OFF hpin]
    rfl
  rw [Finset.sum_congr rfl hone, Finset.sum_const, nsmul_eq_mul, mul_one]

/-- C4 amended check: on the concrete instance, 1 fixed R cell plus 0 decided
OFF flags equals the quota 1. -/
theorem dayoff_sum_includes_fixed_witness :
    dayoffConstraints inpC4 sigC4 ∧
      ((fixedOffCount inpC4 0 : ℤ) +
        (∑ d ∈ (Finset.range (numDays inpC4)).filter
            (fun d => cellCode inpC4 0 d ∉ ([WorkCode.R, WorkCode.RQ, WorkCode.DT] : List String)),
          ((sigC4 0 d ShiftType.OFF).toNat : ℤ)) =
        targetDayoff inpC4 (memberAt inpC4 0).name) :=
  ⟨by decide, dayoff_sum_includes_fixed inpC4 sigC4 0 (by decide) (by decide) (by decide)⟩

/-- C9: a member whose name is not a key of dayOffIndividual gets the default
quota 0, so the day-off constraint forces that member's OFF flags to be all
false in every satisfying assignment, and any pre-filled R, RQ or DT cell for
such a member makes the pinning and day-off constraints jointly unsatisfiable. -/
theorem missing_member_quota_zero (inp : Input) (m : Nat)
    (hm : m < numMembers inp)
    (hmiss : List.lookup (memberAt inp m).name inp.option.dayOffIndividual = none) :
    targetDayoff inp (memberAt inp m).name = 0 ∧
    (∀ σ : Assignment, dayoffConstraints inp σ →
      ∀ d, d < numDays inp → σ m d ShiftType.OFF = false) ∧
    (∀ d, d < numDays inp →
      cellCode inp m d ∈ ([WorkCode.R, WorkCode.RQ, WorkCode.DT] : List String) →
      ∀ σ : Assignment, ¬(predefinedConstraints inp σ ∧ dayoffConstraints inp σ)) := by
  have htd : targetDayoff inp (memberAt inp m).name = 0 := by
    unfold targetDayoff
    rw [hmiss]
    rfl
  refine ⟨htd, ?_, ?_⟩
  · intro σ hq d hd
    have h := hq m hm
    rw [htd] at h
    have hz : offCount inp σ m = 0 := by exact_mod_cast h
    unfold offCount at hz
    have hdz := Finset.sum_eq_zero_iff.mp hz d (Finset.mem_range.mpr hd)
    cases hx : σ m d ShiftType.OFF
    · rfl
    · rw [hx] at hdz
      exact absurd hdz (by decide)
  · intro d hd hcode σ hcon
    obtain ⟨hp, hq⟩ := hcon
    have h := hq m hm
    rw [htd] at h
    have hz : offCount inp σ m = 0 := by exact_mod_cast h
    have hpin : pinnedType (cellCode inp m d) = some ShiftType.OFF := by
      simp only [List.mem_cons, List.not_mem_nil, or_false] at hcode
      rcases hcode with hc | hc | hc <;> rw [hc] <;> decide
    have hoff := hp m hm d hd ShiftType.OFF hpin
    unfold offCount at hz
    have hdz := Finset.sum_eq_zero_iff.mp hz d (Finset.mem_range.mpr hd)
    rw [hoff] at hdz
    exact absurd hdz (by decide)

/-- C9 check: member 1 ("B") of the concrete instance is missing from
dayOffIndividual; its default quota is 0, its OFF flags are forced false, and
its fixed R on day 0 makes the model infeasible. -/
theorem missing_member_quota_zero_witness :
    List.lookup (memberAt inpC9 1).name inpC9.option.dayOffIndividual = none ∧
    (targetDayoff inpC9 (memberAt inpC9 1).name = 0 ∧
     (∀ σ : Assignment, dayoffConstraints inpC9 σ →
       ∀ d, d < numDays inpC9 → σ 1 d ShiftType.OFF = false) ∧
     (∀ d, d < numDays inpC9 →
       cellCode inpC9 1 d ∈ ([WorkCode.R, WorkCode.RQ, WorkCode.DT] : List String) →
       ∀ σ : Assignment, ¬(predefinedConstraints inpC9 σ ∧ dayoffConstraints inpC9 σ))) :=
  ⟨by decide, missing_member_quota_zero inpC9 1 (by decide) (by decide)⟩

/-- Under pinning and exactly-one, the claim-side AM weight of a cell equals its
AM flag minus half its ZT indicator. -/
theorem amWeight_eq (inp : Input) (σ : Assignment) (m d : Nat)
    (hm : m < numMembers inp) (hd : d < numDays inp)
    (hb : basicConstraints inp σ) (hp : predefinedConstraints inp σ) :
    amWeight inp σ m d =
      ((σ m d ShiftType.AM).toNat : ℚ)
        - (if cellCode inp m d = WorkCode.ZT then (1 : ℚ) else 0) / 2 := by
  unfold amWeight
  by_cases hz : cellCode inp m d = WorkCode.ZT
  · rw [if_pos hz, if_pos hz]
    have hpin : pinnedType (cellCode inp m d) = some ShiftType.AM := by
      rw [hz]; decide
    rw [hp m hm d hd ShiftType.AM hpin]
    norm_num
  · rw [if_neg hz, if_neg hz]
    by_cases hdt : cellCode inp m d = WorkCode.DT
    · rw [if_pos hdt]
      have hpin : pinnedType (cellCode inp m d) = some ShiftType.OFF := by
        rw [hdt]; decide
      have hoff := hp m hm d hd ShiftType.OFF hpin
      have ham : σ m d ShiftType.AM = false :=
        flags_unique inp σ m d hm hd hb ShiftType.OFF hoff ShiftType.AM (by decide)
      rw [ham]
      norm_num
    · rw [if_neg hdt]
      norm_num

/-- Under pinning and exactly-one, the claim-side PM weight of a cell equals the
sum of its PM flags minus half its HCT/IAT indicator. -/
theorem pmWeight_eq (inp : Input) (σ : Assignment) (m d : Nat)
    (hm : m < numMembers inp) (hd : d < numDays inp)
    (hb : basicConstraints inp σ) (hp : predefinedConstraints inp σ) :
    pmWeight inp σ m d =
      (((σ m d ShiftType.PM_HC).toNat + (σ m d ShiftType.PM_IA).toNat : ℕ) : ℚ)
        - (if cellCode inp m d = WorkCode.HCT ∨ cellCode inp m d = WorkCode.IAT
            then (1 : ℚ) else 0) / 2 := by
  unfold pmWeight
  by_cases hz : cellCode inp m d = WorkCode.HCT ∨ cellCode inp m d = WorkCode.IAT
  · rw [if_pos hz, if_pos hz]
    rcases hz with hc | hc
    · have hpin : pinnedType (cellCode inp m d) = some ShiftType.PM_HC := by
        rw [hc]; decide
      have hhc := hp m hm d hd ShiftType.PM_HC hpin
      have hia : σ m d ShiftType.PM_IA = false :=
        flags_unique inp σ m d hm hd hb ShiftType.PM_HC hhc ShiftType.PM_IA (by decide)
      rw [hhc, hia]
      norm_num
    · have hpin : pinnedType (cellCode inp m d) = some ShiftType.PM_IA := by
        rw [hc]; decide
      have hia := hp m hm d hd ShiftType.PM_IA hpin
      have hhc : σ m d ShiftType.PM_HC = false :=
        flags_unique inp σ m d hm hd hb ShiftType.PM_IA hia ShiftType.PM_HC (by decide)
      rw [hhc, hia]
      norm_num
  · rw [if_neg hz, if_neg hz]
    norm_num

/-- The staffing-weighted AM total equals the AM flag total minus half the count
of pre-filled ZT cells. -/
theorem weightedAm_eq (inp : Input) (σ : Assignment) (d : Nat)
    (hd : d < numDays inp)
    (hb : basicConstraints inp σ) (hp : predefinedConstraints inp σ) :
    weightedAmTotal inp σ d = (amTotal inp σ d : ℚ) - (ztCount inp d : ℚ) / 2 := by
  unfold weightedAmTotal amTotal ztCount
  push_cast
  rw [Finset.sum_div, ← Finset.sum_sub_distrib]
  refine Finset.sum_congr rfl fun m hm => ?_
  exact amWeight_eq inp σ m d (Finset.mem_range.mp hm) hd hb hp

/-- The staffing-weighted PM total equals the PM flag total minus half the count
of pre-filled HCT/IAT cells. -/
theorem weightedPm_eq (inp : Input) (σ : Assignment) (d : Nat)
    (hd : d < numDays inp)
    (hb : basicConstraints inp σ) (hp : predefinedConstraints inp σ) :
    weightedPmTotal inp σ d = (pmTotal inp σ d : ℚ) - (hctIatCount inp d : ℚ) / 2 := by
  unfold weightedPmTotal pmTotal hctIatCount
  push_cast
  rw [Finset.sum_div, ← Finset.sum_sub_distrib]
  refine Finset.sum_congr rfl fun m hm => ?_
  have := pmWeight_eq inp σ m d (Finset.mem_range.mp hm) hd hb hp
  push_cast at this
  exact this

/-- C1: per day the builder adds exactly one AM and one PM staffing constraint
(`amStaffingConstraint` and `pmStaffingConstraint`, realized by integer doubling
`(total - half) * 2 + half == target * 2` when half-weight cells exist and by the
degenerate `total == target` otherwise); in every assignment satisfying the
exactly-one, pinning and staffing constraints, the staffing-weighted AM total is
1 on both normal and reduced days and the staffing-weighted PM total is 2 on
normal days and 1 on reduced days. -/
theorem daily_staffing_weighted (inp : Input) (σ : Assignment) (d : Nat)
    (hd : d < numDays inp)
    (hb : basicConstraints inp σ) (hp : predefinedConstraints inp σ)
    (hs : dailyStaffingConstraints inp σ) :
    weightedAmTotal inp σ d = 1 ∧
      weightedPmTotal inp σ d = (if isReducedDay inp d then 1 else 2) := by
  obtain ⟨hAM, hPM⟩ := hs d hd
  constructor
  · rw [weightedAm_eq inp σ d hd hb hp]
    unfold amStaffingConstraint at hAM
    have key : (if 0 < ztCount inp d then
        ((amTotal inp σ d : ℤ) - ztCount inp d) * 2 + ztCount inp d = 2
      else (amTotal inp σ d : ℤ) = 1) := by
      by_cases hr : isReducedDay inp d = true
      · rw [if_pos hr] at hAM; exact hAM
      · rw [if_neg hr] at hAM; exact hAM
    by_cases hz : 0 < ztCount inp d
    · rw [if_pos hz] at key
      have hq : ((amTotal inp σ d : ℚ) - (ztCount inp d : ℚ)) * 2
          + (ztCount inp d : ℚ) = 2 := by
        exact_mod_cast key
      linarith
    · rw [if_neg hz] at key
      have hz0 : ztCount inp d = 0 := by omega
      have h1 : (amTotal inp σ d : ℚ) = 1 := by exact_mod_cast key
      rw [hz0, h1]
      norm_num
  · rw [weightedPm_eq inp σ d hd hb hp]
    unfold pmStaffingConstraint at hPM
    by_cases hr : isReducedDay inp d = true
    · rw [if_pos hr] at hPM
      rw [if_pos hr]
      by_cases hz : 0 < hctIatCount inp d
      · rw [if_pos hz] at hPM
        have hq : ((pmTotal inp σ d : ℚ) - (hctIatCount inp d : ℚ)) * 2
            + (hctIatCount inp d : ℚ) = 2 := by
          exact_mod_cast hPM
        linarith
      · rw [if_neg hz] at hPM
        have hz0 : hctIatCount inp d = 0 := by omega
        have h1 : (pmTotal inp σ d : ℚ) = 1 := by exact_mod_cast hPM
        rw [hz0, h1]
        norm_num
    · rw [if_neg hr] at hPM
      rw [if_neg hr]
      by_cases hz : 0 < hctIatCount inp d
      · rw [if_pos hz] at hPM
        have hq : ((pmTotal inp σ d : ℚ) - (hctIatCount inp d : ℚ)) * 2
            + (hctIatCount inp d : ℚ) = 4 := by
          exact_mod_cast hPM
        linarith
      · rw [if_neg hz] at hPM
        have hz0 : hctIatCount inp d = 0 := by omega
        have h1 : (pmTotal inp σ d : ℚ) = 2 := by exact_mod_cast hPM
        rw [hz0, h1]
        norm_num

/-- C1 check: a concrete instance with two ZT half-weight cells on day 0
satisfying all staffing constraints; its weighted totals on day 0 are 1 and 2. -/
theorem daily_staffing_weighted_witness :
    basicConstraints inpC1 sigC1 ∧ predefinedConstraints inpC1 sigC1 ∧
      dailyStaffingConstraints inpC1 sigC1 ∧
      (weightedAmTotal inpC1 sigC1 0 = 1 ∧
        weightedPmTotal inpC1 sigC1 0 = (if isReducedDay inpC1 0 then 1 else 2)) :=
  ⟨by decide, by decide, by decide,
   daily_staffing_weighted inpC1 sigC1 0 (by decide) (by decide) (by decide) (by decide)⟩

/-- For a cell with a vocabulary code, the extracted code is an OFF-category
output code (R, RQ or DT) exactly when the cell's OFF flag is set. -/
theorem extract_offcode_iff (inp : Input) (σ : Assignment) (m d : Nat)
    (hm : m < numMembers inp) (hd : d < numDays inp)
    (hb : basicConstraints inp σ) (hp : predefinedConstraints inp σ)
    (hv : cellCode inp m d ∈ vocabCodes) :
    (if extractDay inp σ m d ∈ ([WorkCode.R, WorkCode.RQ, WorkCode.DT] : List String)
      then (1 : ℕ) else 0) = (σ m d ShiftType.OFF).toNat := by
  have huniq := flags_unique inp σ m d hm hd hb
  simp only [vocabCodes, List.mem_cons, List.not_mem_nil, or_false] at hv
  rcases hv with h | h | h | h | h | h | h | h | h | h
  · -- EMPTY: the cell is decided by the solver
    cases hO : σ m d ShiftType.OFF <;> cases hA : σ m d ShiftType.AM <;>
      cases hH : σ m d ShiftType.PM_HC <;> cases hI : σ m d ShiftType.PM_IA <;>
        simp_all [extractDay, WorkCode.EMPTY, WorkCode.R, WorkCode.RQ, WorkCode.Z,
          WorkCode.HC, WorkCode.IA, WorkCode.DT]
  · -- R pins OFF
    have hoff := hp m hm d hd ShiftType.OFF (by rw [h]; decide)
    simp [extractDay, h, hoff, WorkCode.EMPTY, WorkCode.R, WorkCode.RQ, WorkCode.DT]
  · -- RQ pins OFF
    have hoff := hp m hm d hd ShiftType.OFF (by rw [h]; decide)
    simp [extractDay, h, hoff, WorkCode.EMPTY, WorkCode.R, WorkCode.RQ, WorkCode.DT]
  · -- Z pins AM
    have ham := hp m hm d hd ShiftType.AM (by rw [h]; decide)
    have hoff := huniq ShiftType.AM ham ShiftType.OFF (by decide)
    simp [extractDay, h, hoff, WorkCode.EMPTY, WorkCode.R, WorkCode.RQ, WorkCode.DT,
      WorkCode.Z]
  · -- ZT pins AM
    have ham := hp m hm d hd ShiftType.AM (by rw [h]; decide)
    have hoff := huniq ShiftType.AM ham ShiftType.OFF (by decide)
    simp [extractDay, h, hoff, WorkCode.EMPTY, WorkCode.R, WorkCode.RQ, WorkCode.DT,
      WorkCode.ZT]
  · -- HC pins PM_HC
    have hw := hp m hm d hd ShiftType.PM_HC (by rw [h]; decide)
    have hoff := huniq ShiftType.PM_HC hw ShiftType.OFF (by decide)
    simp [extractDay, h, hoff, WorkCode.EMPTY, WorkCode.R, WorkCode.RQ, WorkCode.DT,
      WorkCode.HC]
  · -- HCT pins PM_HC
    have hw := hp m hm d hd ShiftType.PM_HC (by rw [h]; decide)
    have hoff := huniq ShiftType.PM_HC hw ShiftType.OFF (by decide)
    simp [extractDay, h, hoff, WorkCode.EMPTY, WorkCode.R, WorkCode.RQ, WorkCode.DT,
      WorkCode.HCT]
  · -- IA pins PM_IA
    have hw := hp m hm d hd ShiftType.PM_IA (by rw [h]; decide)
    have hoff := huniq ShiftType.PM_IA hw ShiftType.OFF (by decide)
    simp [extractDay, h, hoff, WorkCode.EMPTY, WorkCode.R, WorkCode.RQ, WorkCode.DT,
      WorkCode.IA]
  · -- IAT pins PM_IA
    have hw := hp m hm d hd ShiftType.PM_IA (by rw [h]; decide)
    have hoff := huniq ShiftType.PM_IA hw ShiftType.OFF (by decide)
    simp [extractDay, h, hoff, WorkCode.EMPTY, WorkCode.R, WorkCode.RQ, WorkCode.DT,
      WorkCode.IAT]
  · -- DT pins OFF
    have hoff := hp m hm d hd ShiftType.OFF (by rw [h]; decide)
    simp [extractDay, h, hoff, WorkCode.EMPTY, WorkCode.R, WorkCode.RQ, WorkCode.DT]

/-- C2: for a member whose pre-filled codes are all in the closed vocabulary,
the number of OFF-category cells in the extracted output row (pre-filled R, RQ
and DT cells plus solver-assigned R cells) equals exactly that member's
configured day-off quota. -/
theorem quota_exact_in_output (inp : Input) (σ : Assignment) (m : Nat) (q : Int)
    (hm : m < numMembers inp)
    (hv : ∀ d, d < numDays inp → cellCode inp m d ∈ vocabCodes)
    (hb : basicConstraints inp σ) (hp : predefinedConstraints inp σ)
    (hq : dayoffConstraints inp σ)
    (hlook : List.lookup (memberAt inp m).name inp.option.dayOffIndividual = some q) :
    (((Finset.range (numDays inp)).filter
      (fun d => extractDay inp σ m d
        ∈ ([WorkCode.R, WorkCode.RQ, WorkCode.DT] : List String))).card : ℤ) = q := by
  have htd : targetDayoff inp (memberAt inp m).name = q := by
    unfold targetDayoff
    rw [hlook]
    rfl
  have hcard : ((Finset.range (numDays inp)).filter
      (fun d => extractDay inp σ m d
        ∈ ([WorkCode.R, WorkCode.RQ, WorkCode.DT] : List String))).card
      = offCount inp σ m := by
    rw [Finset.card_filter]
    unfold offCount
    refine Finset.sum_congr rfl fun d hd => ?_
    exact extract_offcode_iff inp σ m d hm (Finset.mem_range.mp hd) hb hp
      (hv d (Finset.mem_range.mp hd))
  rw [hcard, hq m hm]
  exact htd

/-- C2 check: on the concrete instance (fixed R on day 0, quota 3) the
assignment resting on days 0..2 yields an output row with exactly 3 OFF-category
codes. -/
theorem quota_exact_in_output_witness :
    basicConstraints inpC2 sigC2 ∧ predefinedConstraints inpC2 sigC2 ∧
      dayoffConstraints inpC2 sigC2 ∧
      (((Finset.range (numDays inpC2)).filter
        (fun d => extractDay inpC2 sigC2 0 d
          ∈ ([WorkCode.R, WorkCode.RQ, WorkCode.DT] : List String))).card : ℤ) = 3 :=
  ⟨by decide, by decide, by decide,
   quota_exact_in_output inpC2 sigC2 0 3 (by decide) (by decide) (by decide)
     (by decide) (by decide) (by decide)⟩

/-- C7: the workCodeAverage option encodes nothing: with all other inputs held
fixed, the model the builder produces (shift-variable grid, hard constraints,
soft-constraint reification, penalty list and objective) with
`workCodeAverage = "on"` is identical to the model produced with
`workCodeAverage = "off"`. -/
theorem workCodeAverage_no_op (sched : List MemberSchedule) (opt : Options) :
    buildModel { schedule := sched, option := { opt with workCodeAverage := "on" } } =
      buildModel { schedule := sched, option := { opt with workCodeAverage := "off" } } :=
  rfl

/-- The attempt loop collects at most as many schedules as it makes attempts. -/
theorem runAttempts_length_le (inp : Input) (oracle : SolveOracle) (maxTotal : ℚ) :
    ∀ n i, (runAttempts inp oracle maxTotal i n).length ≤ n := by
  intro n
  induction n with
  | zero =>
    intro i
    simp [runAttempts]
  | succ n ih =>
    intro i
    unfold runAttempts
    split
    · simp
    · split
      · split
        · simp only [List.length_cons]
          exact Nat.succ_le_succ (ih (i + 1))
        · exact le_trans (ih (i + 1)) (Nat.le_succ n)
      · exact le_trans (ih (i + 1)) (Nat.le_succ n)

/-- If some attempt within range executes (the budget is still positive at every
check up to it) and returns OPTIMAL or FEASIBLE, the collected list is
non-empty. -/
theorem runAttempts_ne_nil (inp : Input) (oracle : SolveOracle) (maxTotal : ℚ) :
    ∀ n i k, k < n →
      (∀ j, j ≤ k → 0 < maxTotal - oracle.elapsedAt (i + j)) →
      (oracle.statusAt (i + k) = CpStatus.OPTIMAL ∨
        oracle.statusAt (i + k) = CpStatus.FEASIBLE) →
      runAttempts inp oracle maxTotal i n ≠ [] := by
  intro n
  induction n with
  | zero =>
    intro i k hk hbud hok
    exact absurd hk (Nat.not_lt_zero k)
  | succ n ih =>
    intro i k hk hbud hok
    have hb0 : 0 < maxTotal - oracle.elapsedAt i := by
      simpa using hbud 0 (Nat.zero_le k)
    unfold runAttempts
    rw [if_neg (not_le.mpr hb0)]
    cases k with
    | zero =>
      have hok0 : oracle.statusAt i = CpStatus.OPTIMAL ∨
          oracle.statusAt i = CpStatus.FEASIBLE := by
        simpa using hok
      have hsucc : (extractSolution inp (oracle.assignAt i)).status = "success" := rfl
      rw [if_pos hok0, if_pos hsucc]
      exact List.cons_ne_nil _ _
    | succ k =>
      by_cases hst : oracle.statusAt i = CpStatus.OPTIMAL ∨
          oracle.statusAt i = CpStatus.FEASIBLE
      · have hsucc : (extractSolution inp (oracle.assignAt i)).status = "success" := rfl
        rw [if_pos hst, if_pos hsucc]
        exact List.cons_ne_nil _ _
      · rw [if_neg hst]
        refine ih (i + 1) k (by omega) ?_ ?_
        · intro j hj
          have harith : i + 1 + j = i + (j + 1) := by omega
          rw [harith]
          exact hbud (j + 1) (by omega)
        · have harith : i + 1 + k = i + (k + 1) := by omega
          rw [harith]
          exact hok

/-- C8: in multi-solution mode the driver errors exactly when zero schedules
were collected, and as soon as one executed attempt (budget still positive at
every check up to it) returns OPTIMAL or FEASIBLE the result is a success whose
schedule list has length count with 1 ≤ count ≤ N, even when count < N;
per-attempt failures are absorbed and the loop continues. -/
theorem solve_multiple_graceful (inp : Input) (oracle : SolveOracle)
    (numSolutions : Nat) (maxTotal : ℚ) :
    ((solveMultiple inp oracle numSolutions maxTotal).isError = true ↔
      runAttempts inp oracle maxTotal 0 numSolutions = []) ∧
    ((∃ k, k < numSolutions ∧
        (∀ j, j ≤ k → 0 < maxTotal - oracle.elapsedAt j) ∧
        (oracle.statusAt k = CpStatus.OPTIMAL ∨ oracle.statusAt k = CpStatus.FEASIBLE)) →
      ∃ scheds, solveMultiple inp oracle numSolutions maxTotal =
          GenResult.success scheds scheds.length oracle.finalElapsed ∧
        1 ≤ scheds.length ∧ scheds.length ≤ numSolutions) := by
  constructor
  · simp only [solveMultiple]
    by_cases hlen : (runAttempts inp oracle maxTotal 0 numSolutions).length = 0
    · rw [if_pos hlen]
      simp [GenResult.isError, List.length_eq_zero.mp hlen]
    · rw [if_neg hlen]
      refine ⟨fun habs => ?_, fun hnil => ?_⟩
      · simp [GenResult.isError] at habs
      · exact absurd (by rw [hnil]; rfl) hlen
  · rintro ⟨k, hk, hbud, hok⟩
    have hne : runAttempts inp oracle maxTotal 0 numSolutions ≠ [] := by
      refine runAttempts_ne_nil inp oracle maxTotal numSolutions 0 k hk ?_ ?_
      · intro j hj
        simpa using hbud j hj
      · simpa using hok
    refine ⟨runAttempts inp oracle maxTotal 0 numSolutions, ?_, ?_, ?_⟩
    · simp only [solveMultiple]
      rw [if_neg (fun h => hne (List.length_eq_zero.mp h))]
    · have := List.length_pos.mpr hne
      omega
    · exact runAttempts_length_le inp oracle maxTotal numSolutions 0

/-- C8 check: with an always-FEASIBLE instant oracle, requesting 5 schedules in
a 10-unit budget yields a success with 1 ≤ count ≤ 5 and no error. -/
theorem solve_multiple_graceful_witness :
    (∃ k, k < 5 ∧ (∀ j, j ≤ k → 0 < (10 : ℚ) - oracleC8.elapsedAt j) ∧
      (oracleC8.statusAt k = CpStatus.OPTIMAL ∨ oracleC8.statusAt k = CpStatus.FEASIBLE)) ∧
    ((solveMultiple inpC8 oracleC8 5 10).isError = true ↔
      runAttempts inpC8 oracleC8 10 0 5 = []) ∧
    (∃ scheds, solveMultiple inpC8 oracleC8 5 10 =
        GenResult.success scheds scheds.length oracleC8.finalElapsed ∧
      1 ≤ scheds.length ∧ scheds.length ≤ 5) := by
  have hex : ∃ k, k < 5 ∧ (∀ j, j ≤ k → 0 < (10 : ℚ) - oracleC8.elapsedAt j) ∧
      (oracleC8.statusAt k = CpStatus.OPTIMAL ∨ oracleC8.statusAt k = CpStatus.FEASIBLE) :=
    ⟨0, by decide, fun j hj => by show (0 : ℚ) < 10 - 0; simp, Or.inr rfl⟩
  exact ⟨hex, (solve_multiple_graceful inpC8 oracleC8 5 10).1,
    (solve_multiple_graceful inpC8 oracleC8 5 10).2 hex⟩

end ScheduleGen
